import Mathlib

/-!
Shallow embedding of the falling-block puzzle engine in `src/src/lib.rs`.

Modelling conventions:
* The Rust board is a flat `Vec<Cell>` of length `BOARD_W * BOARD_H`,
  always indexed as `board[(y * BOARD_W + x)]` with `0 ≤ x < BOARD_W`
  and `0 ≤ y < BOARD_H` at every access site.  We model it row-major as
  a `List (List Nat)` of 20 rows of 10 cells; `(x, y)` addresses row
  `y`, column `x`, exactly the cell the flat index addresses.
* `u32` counters (`score`, `lines`) are `Nat` with explicit wrap
  `% 2^32`; `saturating_add` is `min _ (2^32 - 1)`.  `i32` piece
  coordinates are `Int` (the gameplay moves them by at most 2 per call,
  far from the i32 boundary).  `u8` rotation is `Nat`; the code only
  ever stores values produced by `% 4`, where `Nat` and `u8` agree.
* `StdRng` is abstracted as a predetermined stream of tetromino draws
  (`stream : Nat → Tetromino` plus a cursor `rngIdx`): the engine only
  observes the sequence of kinds produced by `random_piece`, and every
  such sequence is realised by some stream.
* The two source `while` loops (`hard_drop` / `ghost_piece` descent and
  `clear_lines`) are written with an explicit iteration budget that is
  proved sufficient: the descent loop runs at most `(BOARD_H - y)` + 1
  times because `is_valid` rejects any piece whose cells reach
  `y ≥ BOARD_H`, and the clear loop runs at most `2*BOARD_H + 1` times
  because each step either decrements `y` (at most 20 times) or removes
  one of at most 20 full rows.  Stability theorems below show the
  budget is never the reason the loop stops.
-/

namespace RustEK

def BOARD_W : Int := 10

def BOARD_H : Int := 20

/-- Tetromino kinds, as in the source `enum Tetromino`. -/
inductive Tetromino where
  | I | O | T | S | Z | J | L
deriving DecidableEq, Fintype, Repr

/-- Discriminant values `I = 1, …, L = 7`, as in the Rust enum; `id()` returns them. -/
def Tetromino.id : Tetromino → Nat
  | .I => 1
  | .O => 2
  | .T => 3
  | .S => 4
  | .Z => 5
  | .J => 6
  | .L => 7

/-- Step result of `tick` / `hard_drop`, as in the source `enum Step`. -/
inductive Step where
  | Moved : Step
  | Locked : Nat → Bool → Step
  | GameOver : Step
deriving DecidableEq, Repr

/-- Active piece: kind, rotation state, origin x, origin y (source `struct Piece`). -/
structure Piece where
  kind : Tetromino
  rot : Nat
  x : Int
  y : Int
deriving DecidableEq, Repr

/-- Shape table `SHAPES`: for each kind and rotation 0–3, the four (dx, dy)
offsets in the 4×4 local frame, transcribed from the source constant.
The source indexes it by `shape_index(kind) = id - 1` and `rot % 4`; here the
kind indexes directly and any rotation outside 0–3 (never supplied, since
every caller reduces `rot % 4` first) yields `[]`. -/
def SHAPES (k : Tetromino) (r : Nat) : List (Int × Int) :=
  match k, r with
  | .I, 0 => [(0, 1), (1, 1), (2, 1), (3, 1)]
  | .I, 1 => [(2, 0), (2, 1), (2, 2), (2, 3)]
  | .I, 2 => [(0, 2), (1, 2), (2, 2), (3, 2)]
  | .I, 3 => [(1, 0), (1, 1), (1, 2), (1, 3)]
  | .O, 0 => [(1, 0), (2, 0), (1, 1), (2, 1)]
  | .O, 1 => [(1, 0), (2, 0), (1, 1), (2, 1)]
  | .O, 2 => [(1, 0), (2, 0), (1, 1), (2, 1)]
  | .O, 3 => [(1, 0), (2, 0), (1, 1), (2, 1)]
  | .T, 0 => [(1, 0), (0, 1), (1, 1), (2, 1)]
  | .T, 1 => [(1, 0), (1, 1), (2, 1), (1, 2)]
  | .T, 2 => [(0, 1), (1, 1), (2, 1), (1, 2)]
  | .T, 3 => [(1, 0), (0, 1), (1, 1), (1, 2)]
  | .S, 0 => [(1, 0), (2, 0), (0, 1), (1, 1)]
  | .S, 1 => [(1, 0), (1, 1), (2, 1), (2, 2)]
  | .S, 2 => [(1, 1), (2, 1), (0, 2), (1, 2)]
  | .S, 3 => [(0, 0), (0, 1), (1, 1), (1, 2)]
  | .Z, 0 => [(0, 0), (1, 0), (1, 1), (2, 1)]
  | .Z, 1 => [(2, 0), (1, 1), (2, 1), (1, 2)]
  | .Z, 2 => [(0, 1), (1, 1), (1, 2), (2, 2)]
  | .Z, 3 => [(1, 0), (0, 1), (1, 1), (0, 2)]
  | .J, 0 => [(0, 0), (0, 1), (1, 1), (2, 1)]
  | .J, 1 => [(1, 0), (2, 0), (1, 1), (1, 2)]
  | .J, 2 => [(0, 1), (1, 1), (2, 1), (2, 2)]
  | .J, 3 => [(1, 0), (1, 1), (0, 2), (1, 2)]
  | .L, 0 => [(2, 0), (0, 1), (1, 1), (2, 1)]
  | .L, 1 => [(1, 0), (1, 1), (1, 2), (2, 2)]
  | .L, 2 => [(0, 1), (1, 1), (2, 1), (0, 2)]
  | .L, 3 => [(0, 0), (1, 0), (1, 1), (1, 2)]
  | _, _ => []

/-- Absolute occupied cells of a piece: origin plus the shape offsets for
`(kind, rot % 4)` (source `blocks_for`). -/
def blocks_for (p : Piece) : List (Int × Int) :=
  (SHAPES p.kind (p.rot % 4)).map fun d => (p.x + d.1, p.y + d.2)

/-- Board cells are `u8` values; a board is 20 rows of 10 cells. -/
abbrev Board := List (List Nat)

def zeroRow : List Nat := List.replicate 10 0

def zeroBoard : Board := List.replicate 20 zeroRow

/-- Read `board[(y * BOARD_W + x)]`, i.e. row `y`, column `x`.  Every source
read site guarantees `0 ≤ x < 10` and `0 ≤ y < 20`. -/
def getCell (b : Board) (x y : Int) : Nat :=
  (b.getD y.toNat zeroRow).getD x.toNat 0

/-- Write `board[(y * BOARD_W + x)] = v`.  Every source write site guarantees
the coordinates are in range. -/
def setCell (b : Board) (x y : Int) (v : Nat) : Board :=
  b.set y.toNat ((b.getD y.toNat zeroRow).set x.toNat v)

/-- Game state (source `struct Game`), with the random generator abstracted
as a stream of draws. -/
structure Game where
  board : Board
  current : Piece
  next : Tetromino
  stream : Nat → Tetromino
  rngIdx : Nat
  score : Nat
  lines : Nat
  game_over : Bool

/-- The u32 modulus. -/
def u32Lim : Nat := 4294967296

namespace Game

/-- Validity of a piece (source `is_valid`): every absolute cell has
`0 ≤ x < BOARD_W`, `y < BOARD_H`, and — when `y ≥ 0` — an empty board cell. -/
def is_valid (g : Game) (p : Piece) : Bool :=
  (blocks_for p).all fun c =>
    !(c.1 < 0 || BOARD_W ≤ c.1 || BOARD_H ≤ c.2) &&
    (if 0 ≤ c.2 then getCell g.board c.1 c.2 == 0 else true)

/-- The current piece translated by `(dx, dy)`. -/
def movedPiece (p : Piece) (dx dy : Int) : Piece :=
  { p with x := p.x + dx, y := p.y + dy }

/-- Source `try_move`: commit the translated candidate and report `true`
iff it is valid, else leave the state unchanged and report `false`. -/
def try_move (g : Game) (dx dy : Int) : Game × Bool :=
  let moved := movedPiece g.current dx dy
  if g.is_valid moved then ({ g with current := moved }, true) else (g, false)

/-- Draw the next tetromino from the abstracted random source
(source `random_piece`, which maps `random_range(0..7)` onto the 7 kinds). -/
def random_piece (g : Game) : Tetromino × Game :=
  (g.stream g.rngIdx, { g with rngIdx := g.rngIdx + 1 })

/-- Source `spawn_new_piece`: promote the lookahead kind to current at
rotation 0, origin (3, 0), draw a fresh lookahead, and set `game_over`
if the spawned position is invalid. -/
def spawn_new_piece (g : Game) : Game :=
  let kind := g.next
  let (n2, g1) := g.random_piece
  let g2 := { g1 with next := n2, current := { kind := kind, rot := 0, x := 3, y := 0 } }
  if !g2.is_valid g2.current then { g2 with game_over := true } else g2

/-- Source `lock_piece`: write the piece-kind id into the board at every
block of the current piece, silently skipping cells with `y < 0`. -/
def lock_piece (g : Game) : Game :=
  let id := g.current.kind.id
  { g with
    board := (blocks_for g.current).foldl
      (fun b c => if c.2 < 0 then b else setCell b c.1 c.2 id) g.board }

/-- Row fullness (inner loop of `clear_lines`): full iff no cell is 0. -/
def isFullRow (r : List Nat) : Bool := r.all fun c => c != 0

/-- The row-shift in `clear_lines`: `for yy in (1..=y).rev()` copies row
`yy - 1` into row `yy`, highest first. -/
def shiftDown : Board → Nat → Board
  | b, 0 => b
  | b, Nat.succ k => shiftDown (b.set (k + 1) (b.getD k zeroRow)) k

/-- The `clear_lines` scan: starting at `y = BOARD_H - 1`, if row `y` is
full, shift rows above down, zero the top row and re-examine the same `y`,
else decrement `y`; stop when `y < 0`.  `fuel` is the iteration budget
(the loop body runs at most `2*BOARD_H + 1` times, see `clearLoop_spec`). -/
def clearLoop : Nat → Board → Int → Nat → Board × Nat
  | 0, b, _, cleared => (b, cleared)
  | Nat.succ fuel, b, y, cleared =>
    if y < 0 then (b, cleared)
    else if isFullRow (b.getD y.toNat zeroRow) then
      clearLoop fuel ((shiftDown b y.toNat).set 0 zeroRow) y (cleared + 1)
    else clearLoop fuel b (y - 1) cleared

/-- Source `clear_lines`: run the scan, add the cleared count to the
running u32 `lines` total, and return the count. -/
def clear_lines (g : Game) : Game × Nat :=
  let r := clearLoop 41 g.board (BOARD_H - 1) 0
  ({ g with board := r.1, lines := (g.lines + r.2) % u32Lim }, r.2)

/-- Source `level`: `(lines / 10) + 1`. -/
def level (g : Game) : Nat := g.lines / 10 + 1

/-- Source `apply_score`: `score = score.saturating_add(base(cleared) * level)`,
with the u32 product wrapping and the sum saturating at `u32::MAX`. -/
def apply_score (g : Game) (cleared : Nat) : Game :=
  let lvl := g.level
  let add : Nat :=
    match cleared with
    | 1 => 40
    | 2 => 100
    | 3 => 300
    | 4 => 1200
    | _ => 0
  { g with score := min (g.score + add * lvl % u32Lim) (u32Lim - 1) }

/-- Source `tick`: the three-branch gravity state machine. -/
def tick (g : Game) : Game × Step :=
  if g.game_over then (g, Step.GameOver)
  else
    let (g1, moved) := g.try_move 0 1
    if moved then (g1, Step.Moved)
    else
      let g2 := g1.lock_piece
      let (g3, cleared) := g2.clear_lines
      let g4 := g3.apply_score cleared
      let g5 := g4.spawn_new_piece
      (g5, Step.Locked cleared g5.game_over)

/-- Source `move_left`. -/
def move_left (g : Game) : Game :=
  if !g.game_over then (g.try_move (-1) 0).1 else g

/-- Source `move_right`. -/
def move_right (g : Game) : Game :=
  if !g.game_over then (g.try_move 1 0).1 else g

/-- Source `soft_drop`: exactly one `tick`. -/
def soft_drop (g : Game) : Game × Step := g.tick

/-- Iteration budget for the downward-translation loops: once the piece
origin passes `BOARD_H` every candidate is invalid, so `(BOARD_H - y) + 1`
iterations always reach the exit condition. -/
def dropBound (p : Piece) : Nat := (BOARD_H - p.y).toNat + 1

/-- Descent loop shared by `ghost_piece` and `hard_drop`'s
`while self.try_move(0, 1) {}`: translate down by 1 while valid. -/
def dropIter (g : Game) : Piece → Nat → Piece
  | p, 0 => p
  | p, Nat.succ fuel =>
    let next := { p with y := p.y + 1 }
    if g.is_valid next then dropIter g next fuel else p

/-- Source `ghost_piece`: project the current piece down until it would
collide, without touching any state. -/
def ghost_piece (g : Game) : Piece :=
  dropIter g g.current (dropBound g.current)

/-- Source `hard_drop`: drop the current piece to rest, then the same
lock → clear → score → spawn sequence as `tick`'s locking branch. -/
def hard_drop (g : Game) : Game × Step :=
  if g.game_over then (g, Step.GameOver)
  else
    let g1 := { g with current := dropIter g g.current (dropBound g.current) }
    let g2 := g1.lock_piece
    let (g3, cleared) := g2.clear_lines
    let g4 := g3.apply_score cleared
    let g5 := g4.spawn_new_piece
    (g5, Step.Locked cleared g5.game_over)

/-- Wall-kick offsets tried by `rotate_cw`, in source order. -/
def KICKS : List Int := [0, -1, 1, -2, 2]

/-- The kick loop of `rotate_cw`: try each horizontal offset in order and
commit the first valid candidate; if none validates, leave `g` unchanged. -/
def tryKicks (g : Game) (rotated : Piece) : List Int → Game
  | [] => g
  | dx :: rest =>
    let candidate := { rotated with x := rotated.x + dx }
    if g.is_valid candidate then { g with current := candidate }
    else tryKicks g rotated rest

/-- Source `rotate_cw`: no-op when the game is over, else advance the
rotation by 1 mod 4 on a copy and run the kick loop. -/
def rotate_cw (g : Game) : Game :=
  if g.game_over then g
  else tryKicks g { g.current with rot := (g.current.rot + 1) % 4 } KICKS

/-- Source `reset`: zero the board in place, zero the counters, clear the
flag, redraw the lookahead (continuing the random stream) and spawn. -/
def reset (g : Game) : Game :=
  let g1 := { g with
    board := g.board.map fun r : List Nat => r.map fun _ => 0,
    score := 0, lines := 0, game_over := false }
  let (n, g2) := g1.random_piece
  spawn_new_piece { g2 with next := n }

/-- Source `cell` accessor: bounds-safe read, 0 when out of range. -/
def cell (g : Game) (x y : Int) : Nat :=
  if x < 0 || BOARD_W ≤ x || y < 0 || BOARD_H ≤ y then 0
  else getCell g.board x y

end Game

/-- Source `Game::new()`: empty board, placeholder current/next, then draw
the lookahead and spawn it.  The entropy seed is the abstracted stream. -/
def initGame (stream : Nat → Tetromino) : Game :=
  let g : Game :=
    { board := zeroBoard
      current := { kind := .I, rot := 0, x := 3, y := 0 }
      next := .I
      stream := stream
      rngIdx := 0
      score := 0
      lines := 0
      game_over := false }
  let (n, g1) := g.random_piece
  Game.spawn_new_piece { g1 with next := n }

/-- Public mutation entry points of the engine. -/
inductive Op where
  | tick | left | right | soft | hard | rotate | reset
deriving DecidableEq, Repr

def applyOp (o : Op) (g : Game) : Game :=
  match o with
  | .tick => g.tick.1
  | .left => g.move_left
  | .right => g.move_right
  | .soft => g.soft_drop.1
  | .hard => g.hard_drop.1
  | .rotate => g.rotate_cw
  | .reset => g.reset

def applyOps (ops : List Op) (g : Game) : Game :=
  ops.foldl (fun g o => applyOp o g) g

/-- Structural board invariant: 20 rows of 10 cells, every value in [0, 7]. -/
def BoardWF (b : Board) : Prop :=
  b.length = 20 ∧ (∀ r ∈ b, r.length = 10) ∧ ∀ r ∈ b, ∀ c ∈ r, c ≤ 7

/-- Number of full rows of a board. -/
def countFull (b : Board) : Nat := b.countP fun r => Game.isFullRow r

/-- Score base values: base(1)=40, base(2)=100, base(3)=300, base(4)=1200,
base of any other count = 0 (the match inside `apply_score`). -/
def scoreBase : Nat → Nat
  | 1 => 40
  | 2 => 100
  | 3 => 300
  | 4 => 1200
  | _ => 0

/-- Whether a rotate_cw call would commit: the game is not over and some
kick offset yields a valid placement of the advanced rotation. -/
def rotationCommits (g : Game) : Bool :=
  !g.game_over &&
    (Game.KICKS.find? (fun o => g.is_valid
      { kind := g.current.kind, rot := (g.current.rot + 1) % 4,
        x := g.current.x + o, y := g.current.y })).isSome

/-- A session with an all-I piece stream that stacks five vertical I pieces
in column 5 and then suffers a blocked spawn: the game-over state whose
current piece (and its whole downward chain) is invalid. -/
def gBlockedSpawn : Game :=
  applyOps [.rotate, .hard, .rotate, .hard, .rotate, .hard, .rotate, .hard, .rotate, .hard]
    (initGame fun _ => .I)

/-- A state whose score already sits at `u32::MAX`, with row 19 one O-piece
away from completion: the next tick clears a line yet cannot raise the score. -/
def gSaturated : Game :=
  { board := List.replicate 19 zeroRow ++ [[1, 0, 0, 1, 1, 1, 1, 1, 1, 1]]
    current := { kind := .O, rot := 0, x := 0, y := 18 }
    next := .I
    stream := fun _ => .I
    rngIdx := 0
    score := u32Lim - 1
    lines := 0
    game_over := false }

/-- A state whose lines counter already sits at `u32::MAX`, with row 19 one
O-piece away from completion: the next tick wraps `lines` to 0. -/
def gLinesMax : Game :=
  { board := List.replicate 19 zeroRow ++ [[1, 0, 0, 1, 1, 1, 1, 1, 1, 1]]
    current := { kind := .O, rot := 0, x := 0, y := 18 }
    next := .I
    stream := fun _ => .I
    rngIdx := 0
    score := 0
    lines := u32Lim - 1
    game_over := false }

/-- A state where the first clockwise rotation of the I piece succeeds but
every later one is blocked (row 12 is filled except at column 5), so four
rotations end at rotation state 1, not back at 0. -/
def gKickAsym : Game :=
  { board := List.replicate 12 zeroRow ++ [[0, 1, 1, 1, 1, 0, 1, 1, 1, 0]]
        ++ List.replicate 7 zeroRow
    current := { kind := .I, rot := 0, x := 3, y := 10 }
    next := .I
    stream := fun _ => .I
    rngIdx := 0
    score := 0
    lines := 0
    game_over := false }

/-- A state about to clear four rows at once at level 1: rows 16–19 are full
except in column 5 and a vertical I piece is resting in that column. -/
def gTetris : Game :=
  { board := List.replicate 16 zeroRow ++ List.replicate 4 [1, 1, 1, 1, 1, 0, 1, 1, 1, 1]
    current := { kind := .I, rot := 1, x := 3, y := 16 }
    next := .I
    stream := fun _ => .I
    rngIdx := 0
    score := 0
    lines := 0
    game_over := false }

/-- A fresh session with an all-I piece stream, used to instantiate theorems. -/
def gStart : Game := initGame fun _ => .I

/-! ### Generic list helpers -/

theorem getD_set_self {α : Type _} (l : List α) (i : Nat) (a d : α) (h : i < l.length) :
    (l.set i a).getD i d = a := by
  rw [List.getD_eq_getElem _ _ (by simpa using h), List.getElem_set_self]

theorem getD_set_ne {α : Type _} (l : List α) {i j : Nat} (a d : α) (h : i ≠ j) :
    (l.set i a).getD j d = l.getD j d := by
  by_cases hj : j < l.length
  · rw [List.getD_eq_getElem _ _ (by simpa using hj), List.getD_eq_getElem _ _ hj,
      List.getElem_set_ne h]
  · rw [List.getD_eq_default _ _ (by simpa using Nat.le_of_not_lt hj),
      List.getD_eq_default _ _ (Nat.le_of_not_lt hj)]

theorem take_set_of_le {α : Type _} :
    ∀ (l : List α) (i j : Nat) (a : α), j ≤ i → (l.set i a).take j = l.take j
  | [], _, _, _, _ => rfl
  | _ :: _, _, 0, _, _ => by simp
  | _ :: _, 0, _ + 1, _, h => absurd h (by omega)
  | x :: xs, i + 1, j + 1, a, h => by
    simp only [List.set_cons_succ, List.take_succ_cons]
    rw [take_set_of_le xs i j a (by omega)]

theorem drop_set_self {α : Type _} :
    ∀ (l : List α) (i : Nat) (a : α), i < l.length → (l.set i a).drop i = a :: l.drop (i + 1)
  | [], i, _, h => absurd h (by simp)
  | x :: xs, 0, a, _ => by simp
  | x :: xs, i + 1, a, h => by
    simp only [List.set_cons_succ, List.drop_succ_cons]
    exact drop_set_self xs i a (by simpa using Nat.lt_of_succ_lt_succ h)

theorem countP_set_le {α : Type _} (p : α → Bool) :
    ∀ (l : List α) (i : Nat) (a : α), (l.set i a).countP p ≤ l.countP p + 1
  | [], _, _ => by simp
  | x :: xs, 0, a => by
    simp only [List.set_cons_zero, List.countP_cons]
    split <;> split <;> omega
  | x :: xs, i + 1, a => by
    simp only [List.set_cons_succ, List.countP_cons]
    have := countP_set_le p xs i a
    omega

/-! ### Shape-table facts -/

theorem SHAPES_snd_nonneg : ∀ (k : Tetromino) (r : Fin 4), ∀ d ∈ SHAPES k r.val, 0 ≤ d.2 := by
  decide

theorem SHAPES_ne_nil : ∀ (k : Tetromino) (r : Fin 4), SHAPES k r.val ≠ [] := by
  decide

/-! ### Validity characterization -/

theorem is_valid_iff (g : Game) (p : Piece) :
    g.is_valid p = true ↔ ∀ c ∈ blocks_for p,
      0 ≤ c.1 ∧ c.1 < BOARD_W ∧ c.2 < BOARD_H ∧ (0 ≤ c.2 → getCell g.board c.1 c.2 = 0) := by
  unfold Game.is_valid
  rw [List.all_eq_true]
  refine forall_congr' fun c => forall_congr' fun _ => ?_
  rw [Bool.and_eq_true, Bool.not_eq_true']
  constructor
  · rintro ⟨h1, h2⟩
    simp only [Bool.or_eq_false_iff, decide_eq_false_iff_not, not_lt, not_le] at h1
    refine ⟨h1.1.1, h1.1.2, h1.2, fun hy => ?_⟩
    rw [if_pos hy] at h2
    exact beq_iff_eq.mp h2
  · rintro ⟨h1, h2, h3, h4⟩
    constructor
    · simp only [Bool.or_eq_false_iff, decide_eq_false_iff_not, not_lt, not_le]
      exact ⟨⟨h1, h2⟩, h3⟩
    · by_cases hy : (0 : Int) ≤ c.2
      · rw [if_pos hy]
        exact beq_iff_eq.mpr (h4 hy)
      · rw [if_neg hy]

theorem is_valid_y_le (g : Game) (p : Piece) (h : g.is_valid p = true) : p.y ≤ 19 := by
  have hr : p.rot % 4 < 4 := Nat.mod_lt _ (by omega)
  obtain ⟨d, hd⟩ :=
    List.exists_mem_of_ne_nil _ (SHAPES_ne_nil p.kind ⟨p.rot % 4, hr⟩)
  have hmem : (p.x + d.1, p.y + d.2) ∈ blocks_for p :=
    List.mem_map.mpr ⟨d, hd, rfl⟩
  have hc := (is_valid_iff g p).mp h _ hmem
  have hdy := SHAPES_snd_nonneg p.kind ⟨p.rot % 4, hr⟩ d hd
  have : p.y + d.2 < BOARD_H := hc.2.2.1
  unfold BOARD_H at this
  omega

/-! ### The clear-lines loop: shift characterization and net effect -/

theorem isFullRow_zeroRow : Game.isFullRow zeroRow = false := by decide

theorem shiftDown_eq : ∀ (y : Nat) (b : Board), y < b.length →
    Game.shiftDown b y = b.getD 0 zeroRow :: (b.take y ++ b.drop (y + 1))
  | 0, b, h => by
    cases b with
    | nil => simp at h
    | cons x xs => simp [Game.shiftDown]
  | y + 1, b, h => by
    rw [Game.shiftDown]
    have hlen : y < (b.set (y + 1) (b.getD y zeroRow)).length := by
      rw [List.length_set]; omega
    rw [shiftDown_eq y _ hlen]
    rw [getD_set_ne b (b.getD y zeroRow) zeroRow (by omega)]
    rw [take_set_of_le b (y + 1) y _ (by omega)]
    rw [drop_set_self b (y + 1) _ h]
    rw [List.getD_eq_getElem b zeroRow (show y < b.length by omega)]
    rw [List.append_cons, List.take_succ,
      List.getElem?_eq_getElem (show y < b.length by omega)]
    rfl

theorem clearRow_eq (b : Board) (y : Nat) (h : y < b.length) :
    (Game.shiftDown b y).set 0 zeroRow = zeroRow :: (b.take y ++ b.drop (y + 1)) := by
  rw [shiftDown_eq y b h, List.set_cons_zero]

theorem clearLoop_spec : ∀ (fuel : Nat) (b : Board) (y : Int) (cleared : Nat),
    b.length = 20 → y < 20 →
    (y + 1).toNat + countFull (b.take (y + 1).toNat) + 1 ≤ fuel →
    Game.clearLoop fuel b y cleared =
      (List.replicate (countFull (b.take (y + 1).toNat)) zeroRow
         ++ (b.take (y + 1).toNat).filter (fun r => !Game.isFullRow r)
         ++ b.drop (y + 1).toNat,
       cleared + countFull (b.take (y + 1).toNat)) := by
  intro fuel
  induction fuel with
  | zero => intro b y cleared _ _ hfuel; omega
  | succ fuel ih =>
    intro b y cleared hb hy hfuel
    rw [Game.clearLoop]
    by_cases hneg : y < 0
    · rw [if_pos hneg]
      have h0 : (y + 1).toNat = 0 := by omega
      simp [h0, countFull]
    · rw [if_neg hneg]
      have hyn : y.toNat < 20 := by omega
      have hy1 : (y + 1).toNat = y.toNat + 1 := by omega
      have hywb : y.toNat < b.length := by omega
      have hrow : b.getD y.toNat zeroRow = b[y.toNat] := List.getD_eq_getElem _ _ hywb
      have htake : b.take (y.toNat + 1) = b.take y.toNat ++ [b[y.toNat]] := by
        rw [List.take_succ, List.getElem?_eq_getElem hywb]
        rfl
      have htlen : (b.take y.toNat).length = y.toNat := by
        rw [List.length_take]; omega
      by_cases hfull : Game.isFullRow (b.getD y.toNat zeroRow) = true
      · rw [if_pos hfull]
        rw [hrow] at hfull
        have hb'eq : (Game.shiftDown b y.toNat).set 0 zeroRow
            = zeroRow :: (b.take y.toNat ++ b.drop (y.toNat + 1)) := clearRow_eq b y.toNat hywb
        have hb'len : ((Game.shiftDown b y.toNat).set 0 zeroRow).length = 20 := by
          rw [hb'eq]; simp only [List.length_cons, List.length_append, htlen, List.length_drop]
          omega
        have hcount : countFull (b.take (y.toNat + 1)) = countFull (b.take y.toNat) + 1 := by
          rw [htake]
          unfold countFull
          rw [List.countP_append, List.countP_cons]
          simp [hfull]
        have htake' : ((Game.shiftDown b y.toNat).set 0 zeroRow).take ((y + 1).toNat)
            = zeroRow :: b.take y.toNat := by
          rw [hy1, hb'eq, List.take_succ_cons, List.take_append_of_le_length (by omega),
            List.take_take]
          simp
        have hcount' : countFull (((Game.shiftDown b y.toNat).set 0 zeroRow).take ((y + 1).toNat))
            = countFull (b.take y.toNat) := by
          rw [htake']
          unfold countFull
          rw [List.countP_cons]
          simp [isFullRow_zeroRow]
        have hdrop' : ((Game.shiftDown b y.toNat).set 0 zeroRow).drop ((y + 1).toNat)
            = b.drop ((y + 1).toNat) := by
          rw [hy1, hb'eq, List.drop_succ_cons, List.drop_left' htlen]
        rw [ih _ y (cleared + 1) hb'len hy (by rw [hcount']; rw [hy1] at hfuel; omega)]
        rw [hcount', htake', hdrop', hy1, hcount]
        have hfilter : (b.take (y.toNat + 1)).filter (fun r => !Game.isFullRow r)
            = (b.take y.toNat).filter (fun r => !Game.isFullRow r) := by
          rw [htake, List.filter_append, List.filter_cons]
          simp [hfull]
        have hfilter' : (zeroRow :: b.take y.toNat).filter (fun r => !Game.isFullRow r)
            = zeroRow :: (b.take y.toNat).filter (fun r => !Game.isFullRow r) := by
          rw [List.filter_cons]
          simp [isFullRow_zeroRow]
        rw [hfilter, hfilter', List.replicate_succ']
        simp only [Prod.mk.injEq]
        constructor
        · simp [List.append_assoc]
        · omega
      · rw [if_neg hfull]
        rw [hrow] at hfull
        have hfull' : Game.isFullRow b[y.toNat] = false := Bool.eq_false_iff.mpr hfull
        have hcount : countFull (b.take (y.toNat + 1)) = countFull (b.take y.toNat) := by
          rw [htake]
          unfold countFull
          rw [List.countP_append, List.countP_cons]
          simp [hfull']
        have hy1' : (y - 1 + 1).toNat = y.toNat := by omega
        rw [ih b (y - 1) cleared hb (by omega)
          (by rw [hy1']; rw [hy1, hcount] at hfuel; omega)]
        rw [hy1', hy1, hcount]
        have hfilter : (b.take (y.toNat + 1)).filter (fun r => !Game.isFullRow r)
            = (b.take y.toNat).filter (fun r => !Game.isFullRow r) ++ [b[y.toNat]] := by
          rw [htake, List.filter_append, List.filter_cons]
          simp [hfull']
        rw [hfilter, List.drop_eq_getElem_cons hywb]
        simp only [Prod.mk.injEq]
        refine ⟨?_, trivial⟩
        simp [List.append_assoc]

theorem countFull_le (b : Board) : countFull b ≤ b.length :=
  List.countP_le_length _

theorem clear_lines_eq (g : Game) (hb : g.board.length = 20) :
    g.clear_lines =
      ({ g with
          board := List.replicate (countFull g.board) zeroRow
            ++ g.board.filter (fun r => !Game.isFullRow r),
          lines := (g.lines + countFull g.board) % u32Lim },
       countFull g.board) := by
  have htake : g.board.take ((BOARD_H - 1 + 1).toNat) = g.board := by
    apply List.take_of_length_le
    rw [hb]; unfold BOARD_H; omega
  have hdrop : g.board.drop ((BOARD_H - 1 + 1).toNat) = [] := by
    apply List.drop_eq_nil_of_le
    rw [hb]; unfold BOARD_H; omega
  have hk : countFull g.board ≤ 20 := hb ▸ countFull_le g.board
  unfold Game.clear_lines
  rw [clearLoop_spec 41 g.board (BOARD_H - 1) 0 hb (by unfold BOARD_H; omega)
    (by rw [htake]; unfold BOARD_H; omega)]
  rw [htake, hdrop]
  simp

theorem countP_not_eq {α : Type _} (p : α → Bool) :
    ∀ l : List α, l.countP (fun a => !p a) = l.length - l.countP p
  | [] => by simp
  | x :: xs => by
    have hle := List.countP_le_length p (l := xs)
    have ih := countP_not_eq p xs
    rw [List.countP_cons, List.countP_cons]
    by_cases h : p x = true
    · simp [h, ih, List.length_cons]
    · simp [h, ih, List.length_cons]
      omega

theorem clear_lines_board_length (g : Game) (hb : g.board.length = 20) :
    (g.clear_lines).1.board.length = 20 := by
  rw [clear_lines_eq g hb]
  simp only [List.length_append, List.length_replicate]
  have hf : (g.board.filter (fun r => !Game.isFullRow r)).length
      = g.board.countP (fun r => !Game.isFullRow r) :=
    (List.countP_eq_length_filter _ _).symm
  have hk : countFull g.board ≤ 20 := hb ▸ countFull_le g.board
  have hn := countP_not_eq (fun r => Game.isFullRow r) g.board
  unfold countFull at hk ⊢
  rw [hf, hn, hb]
  omega

/-! ### Board invariant preservation -/

theorem Tetromino.id_le : ∀ k : Tetromino, Tetromino.id k ≤ 7 := by decide

theorem zeroRow_wf : zeroRow.length = 10 ∧ ∀ c ∈ zeroRow, c ≤ 7 := by decide

theorem BoardWF_setCell (b : Board) (x y : Int) (v : Nat) (h : BoardWF b) (hv : v ≤ 7) :
    BoardWF (setCell b x y v) := by
  obtain ⟨hlen, hrows, hcells⟩ := h
  have hrowlen : (b.getD y.toNat zeroRow).length = 10 := by
    by_cases hy : y.toNat < b.length
    · rw [List.getD_eq_getElem _ _ hy]
      exact hrows _ (List.getElem_mem hy)
    · rw [List.getD_eq_default _ _ (Nat.le_of_not_lt hy)]
      exact zeroRow_wf.1
  have hrowcells : ∀ c ∈ (b.getD y.toNat zeroRow).set x.toNat v, c ≤ 7 := by
    intro c hc
    rcases List.mem_or_eq_of_mem_set hc with hc' | hc'
    · by_cases hy : y.toNat < b.length
      · rw [List.getD_eq_getElem _ _ hy] at hc'
        exact hcells _ (List.getElem_mem hy) _ hc'
      · rw [List.getD_eq_default _ _ (Nat.le_of_not_lt hy)] at hc'
        exact zeroRow_wf.2 _ hc'
    · exact hc' ▸ hv
  refine ⟨by rw [setCell, List.length_set]; exact hlen, ?_, ?_⟩
  · intro r hr
    rcases List.mem_or_eq_of_mem_set hr with hr' | hr'
    · exact hrows _ hr'
    · rw [hr', List.length_set]
      exact hrowlen
  · intro r hr
    rcases List.mem_or_eq_of_mem_set hr with hr' | hr'
    · exact hcells _ hr'
    · exact hr' ▸ hrowcells

theorem BoardWF_lockFold (v : Nat) (hv : v ≤ 7) :
    ∀ (blocks : List (Int × Int)) (b : Board), BoardWF b →
    BoardWF (blocks.foldl (fun b c => if c.2 < 0 then b else setCell b c.1 c.2 v) b)
  | [], _, h => h
  | c :: rest, b, h => by
    rw [List.foldl_cons]
    by_cases hc : c.2 < 0
    · rw [if_pos hc]
      exact BoardWF_lockFold v hv rest b h
    · rw [if_neg hc]
      exact BoardWF_lockFold v hv rest _ (BoardWF_setCell b c.1 c.2 v h hv)

theorem BoardWF_lock (g : Game) (h : BoardWF g.board) : BoardWF g.lock_piece.board := by
  unfold Game.lock_piece
  exact BoardWF_lockFold _ (Tetromino.id_le _) _ _ h

/-! ### Field effects of the primitives -/

theorem try_move_eq (g : Game) (dx dy : Int) :
    g.try_move dx dy =
      if g.is_valid (Game.movedPiece g.current dx dy) then
        ({ g with current := Game.movedPiece g.current dx dy }, true)
      else (g, false) := rfl

theorem spawn_board (g : Game) : (g.spawn_new_piece).board = g.board := by
  simp only [Game.spawn_new_piece, Game.random_piece]
  split <;> rfl

theorem spawn_score (g : Game) : (g.spawn_new_piece).score = g.score := by
  simp only [Game.spawn_new_piece, Game.random_piece]
  split <;> rfl

theorem spawn_lines (g : Game) : (g.spawn_new_piece).lines = g.lines := by
  simp only [Game.spawn_new_piece, Game.random_piece]
  split <;> rfl

theorem tick_eq (g : Game) :
    g.tick =
      if g.game_over then (g, Step.GameOver)
      else if g.is_valid (Game.movedPiece g.current 0 1) then
        ({ g with current := Game.movedPiece g.current 0 1 }, Step.Moved)
      else
        ((((g.lock_piece.clear_lines).1.apply_score
            (g.lock_piece.clear_lines).2).spawn_new_piece),
         Step.Locked (g.lock_piece.clear_lines).2
           (((g.lock_piece.clear_lines).1.apply_score
              (g.lock_piece.clear_lines).2).spawn_new_piece).game_over) := by
  unfold Game.tick
  by_cases hov : g.game_over
  · simp [hov]
  · simp only [hov, Bool.false_eq_true, if_false, try_move_eq]
    by_cases hv : g.is_valid (Game.movedPiece g.current 0 1) = true
    · simp [hv]
    · simp only [Bool.not_eq_true] at hv
      simp [hv]

theorem hard_drop_eq (g : Game) :
    g.hard_drop =
      if g.game_over then (g, Step.GameOver)
      else
        let g1 := { g with current := Game.dropIter g g.current (Game.dropBound g.current) }
        (((g1.lock_piece.clear_lines).1.apply_score
            (g1.lock_piece.clear_lines).2).spawn_new_piece,
         Step.Locked (g1.lock_piece.clear_lines).2
           (((g1.lock_piece.clear_lines).1.apply_score
              (g1.lock_piece.clear_lines).2).spawn_new_piece).game_over) := rfl

theorem tryKicks_eq_find (g : Game) (p : Piece) : ∀ l : List Int,
    Game.tryKicks g p l =
      match l.find? (fun o => g.is_valid { p with x := p.x + o }) with
      | some o => { g with current := { p with x := p.x + o } }
      | none => g
  | [] => rfl
  | dx :: rest => by
    rw [Game.tryKicks]
    by_cases h : g.is_valid { p with x := p.x + dx } = true
    · rw [if_pos h,
        @List.find?_cons_of_pos _ (fun o => g.is_valid { p with x := p.x + o }) dx rest h]
    · rw [if_neg (by simpa using h),
        @List.find?_cons_of_neg _ (fun o => g.is_valid { p with x := p.x + o }) dx rest h,
        tryKicks_eq_find g p rest]

theorem tryKicks_board (g : Game) (p : Piece) (l : List Int) :
    (Game.tryKicks g p l).board = g.board ∧ (Game.tryKicks g p l).score = g.score ∧
    (Game.tryKicks g p l).lines = g.lines ∧ (Game.tryKicks g p l).game_over = g.game_over := by
  rw [tryKicks_eq_find]
  split <;> exact ⟨rfl, rfl, rfl, rfl⟩

theorem reset_board (g : Game) :
    (g.reset).board = g.board.map fun r : List Nat => r.map fun _ => 0 := by
  unfold Game.reset
  simp only [Game.random_piece]
  rw [spawn_board]

theorem BoardWF_clear (g : Game) (h : BoardWF g.board) : BoardWF (g.clear_lines).1.board := by
  have hb := h.1
  refine ⟨clear_lines_board_length g hb, ?_, ?_⟩ <;>
    rw [clear_lines_eq g hb] <;> intro r hr <;>
    rcases List.mem_append.mp hr with hr' | hr'
  · rw [List.eq_of_mem_replicate hr']
    exact zeroRow_wf.1
  · exact h.2.1 _ (List.mem_of_mem_filter hr')
  · rw [List.eq_of_mem_replicate hr']
    exact zeroRow_wf.2
  · exact h.2.2 _ (List.mem_of_mem_filter hr')

theorem BoardWF_zeroed (b : Board) (h : BoardWF b) :
    BoardWF (b.map fun r : List Nat => r.map fun _ => 0) := by
  refine ⟨by rw [List.length_map]; exact h.1, ?_, ?_⟩
  · intro r hr
    obtain ⟨r0, hr0, rfl⟩ := List.mem_map.mp hr
    rw [List.length_map]
    exact h.2.1 _ hr0
  · intro r hr c hc
    obtain ⟨r0, _, rfl⟩ := List.mem_map.mp hr
    obtain ⟨c0, _, rfl⟩ := List.mem_map.mp hc
    exact Nat.le_of_lt_succ (by omega)

theorem BoardWF_applyOp (o : Op) (g : Game) (h : BoardWF g.board) :
    BoardWF (applyOp o g).board := by
  have hlocked : BoardWF ((((g.lock_piece.clear_lines).1.apply_score
      (g.lock_piece.clear_lines).2).spawn_new_piece)).board := by
    rw [spawn_board]
    exact BoardWF_clear _ (BoardWF_lock _ h)
  have htick : BoardWF (g.tick).1.board := by
    rw [tick_eq]
    by_cases hov : g.game_over = true
    · rw [if_pos hov]
      exact h
    · rw [if_neg hov]
      by_cases hv : g.is_valid (Game.movedPiece g.current 0 1) = true
      · rw [if_pos hv]
        exact h
      · rw [if_neg hv]
        exact hlocked
  cases o with
  | tick => exact htick
  | soft => exact htick
  | left =>
    show BoardWF g.move_left.board
    unfold Game.move_left
    split
    · rw [try_move_eq]
      split <;> exact h
    · exact h
  | right =>
    show BoardWF g.move_right.board
    unfold Game.move_right
    split
    · rw [try_move_eq]
      split <;> exact h
    · exact h
  | rotate =>
    show BoardWF g.rotate_cw.board
    unfold Game.rotate_cw
    split
    · exact h
    · rw [(tryKicks_board g _ Game.KICKS).1]
      exact h
  | hard =>
    show BoardWF g.hard_drop.1.board
    rw [hard_drop_eq]
    by_cases hov : g.game_over = true
    · rw [if_pos hov]
      exact h
    · rw [if_neg hov]
      rw [spawn_board]
      exact BoardWF_clear _ (BoardWF_lock _ h)
  | reset =>
    show BoardWF g.reset.board
    rw [reset_board]
    exact BoardWF_zeroed _ h

theorem BoardWF_applyOps : ∀ (ops : List Op) (g : Game), BoardWF g.board →
    BoardWF (applyOps ops g).board
  | [], _, h => h
  | o :: ops, g, h => BoardWF_applyOps ops (applyOp o g) (BoardWF_applyOp o g h)

theorem initGame_board (stream : Nat → Tetromino) : (initGame stream).board = zeroBoard := by
  unfold initGame
  simp only [Game.random_piece]
  rw [spawn_board]

theorem BoardWF_zeroBoard : BoardWF zeroBoard := by
  unfold BoardWF
  decide

theorem flatten_length_of_rows : ∀ b : Board, (∀ r ∈ b, r.length = 10) →
    b.flatten.length = 10 * b.length
  | [], _ => rfl
  | r :: rest, h => by
    rw [List.flatten_cons, List.length_append,
      flatten_length_of_rows rest (fun r hr => h r (List.mem_cons_of_mem _ hr)),
      h r (List.mem_cons_self r rest)]
    simp only [List.length_cons]
    ring

/-! ### Lock characterization -/

theorem setCell_rows (b : Board) (x y : Int) (v : Nat) (hr : ∀ r ∈ b, r.length = 10) :
    ∀ r ∈ setCell b x y v, r.length = 10 := by
  intro r hrm
  rcases List.mem_or_eq_of_mem_set hrm with h | h
  · exact hr _ h
  · rw [h, List.length_set]
    by_cases hy : y.toNat < b.length
    · rw [List.getD_eq_getElem _ _ hy]
      exact hr _ (List.getElem_mem hy)
    · rw [List.getD_eq_default _ _ (Nat.le_of_not_lt hy)]
      exact zeroRow_wf.1

theorem getCell_setCell (b : Board) (hb : b.length = 20) (hr : ∀ r ∈ b, r.length = 10)
    (x' y' x y : Int) (v : Nat)
    (hx' : 0 ≤ x') (hx'W : x' < 10) (hy' : 0 ≤ y') (hy'H : y' < 20)
    (hx : 0 ≤ x) (hy : 0 ≤ y) :
    getCell (setCell b x' y' v) x y = if x = x' ∧ y = y' then v else getCell b x y := by
  unfold getCell setCell
  have hyb : y'.toNat < b.length := by omega
  have hrowlen : (b.getD y'.toNat zeroRow).length = 10 := by
    rw [List.getD_eq_getElem _ _ hyb]
    exact hr _ (List.getElem_mem hyb)
  by_cases hyy : y = y'
  · subst hyy
    rw [getD_set_self b y.toNat _ zeroRow hyb]
    by_cases hxx : x = x'
    · subst hxx
      rw [getD_set_self _ x.toNat _ 0 (by omega), if_pos ⟨rfl, rfl⟩]
    · rw [getD_set_ne _ _ 0 (fun hxe => hxx (by omega)),
        if_neg (fun hc => hxx hc.1)]
  · rw [getD_set_ne b _ zeroRow (fun hye => hyy (by omega)),
      if_neg (fun hc => hyy hc.2)]

theorem getCell_lockFold (v : Nat) :
    ∀ (blocks : List (Int × Int)) (b : Board), b.length = 20 → (∀ r ∈ b, r.length = 10) →
    (∀ c ∈ blocks, 0 ≤ c.1 ∧ c.1 < 10 ∧ c.2 < 20) →
    ∀ x y : Int, 0 ≤ x → x < 10 → 0 ≤ y → y < 20 →
    getCell (blocks.foldl (fun b c => if c.2 < 0 then b else setCell b c.1 c.2 v) b) x y
      = if (x, y) ∈ blocks then v else getCell b x y
  | [], b, _, _, _, x, y, _, _, _, _ => by simp
  | c :: rest, b, hb, hr, hc, x, y, hx, hxW, hy, hyH => by
    have hcr : ∀ c' ∈ rest, 0 ≤ c'.1 ∧ c'.1 < 10 ∧ c'.2 < 20 :=
      fun c' hc' => hc c' (List.mem_cons_of_mem _ hc')
    have hch := hc c (List.mem_cons_self c rest)
    rw [List.foldl_cons]
    by_cases hneg : c.2 < 0
    · rw [if_pos hneg,
        getCell_lockFold v rest b hb hr hcr x y hx hxW hy hyH]
      have hne : ¬ (x, y) = c := fun he => by
        rw [← he] at hneg
        omega
      by_cases hm : (x, y) ∈ rest
      · rw [if_pos hm, if_pos (List.mem_cons_of_mem _ hm)]
      · rw [if_neg hm, if_neg (by
          intro hmc
          rcases List.mem_cons.mp hmc with h | h
          · exact hne h
          · exact hm h)]
    · rw [if_neg hneg,
        getCell_lockFold v rest _ (by rw [setCell, List.length_set]; exact hb)
          (setCell_rows b c.1 c.2 v hr) hcr x y hx hxW hy hyH,
        getCell_setCell b hb hr c.1 c.2 x y v hch.1 hch.2.1 (by omega) hch.2.2 hx hy]
      by_cases hm : (x, y) ∈ rest
      · rw [if_pos hm, if_pos (List.mem_cons_of_mem _ hm)]
      · rw [if_neg hm]
        by_cases he : (x, y) = c
        · rw [if_pos (by rw [Prod.ext_iff] at he; exact he),
            if_pos (List.mem_cons.mpr (Or.inl he))]
        · rw [if_neg (by rw [Prod.ext_iff] at he; exact he), if_neg (by
            intro hmc
            rcases List.mem_cons.mp hmc with h | h
            · exact he h
            · exact hm h)]

/-! ### Claim theorems and their witnesses -/

/-- C9: after construction and after every sequence of public operations
(tick, move_left, move_right, soft_drop, hard_drop, rotate_cw, reset), every
cell stored in the board holds a value in [0, 7] — 0 meaning empty, 1–7 a
piece-kind id — and the board's flat length stays 10 × 20 = 200. -/
theorem board_cells_invariant (stream : Nat → Tetromino) (ops : List Op) :
    (applyOps ops (initGame stream)).board.flatten.length = 200 ∧
    ∀ c ∈ (applyOps ops (initGame stream)).board.flatten, c ≤ 7 := by
  have hwf : BoardWF (applyOps ops (initGame stream)).board :=
    BoardWF_applyOps ops _ (by rw [initGame_board]; exact BoardWF_zeroBoard)
  constructor
  · rw [flatten_length_of_rows _ hwf.2.1, hwf.1]
  · intro c hc
    obtain ⟨r, hr, hcr⟩ := List.mem_flatten.mp hc
    exact hwf.2.2 r hr c hcr

/-- Witness for C9: a concrete two-call session keeps the flat board length
at 200. -/
theorem board_cells_invariant_witness :
    (applyOps [Op.rotate, Op.hard] (initGame fun _ => Tetromino.I)).board.flatten.length = 200 :=
  (board_cells_invariant (fun _ => Tetromino.I) [Op.rotate, Op.hard]).1

/-- C2: is_valid accepts a piece iff each of its absolute cells has
0 ≤ x < BOARD_W and y < BOARD_H and, when y ≥ 0, an empty board cell
(negative-y cells are exempt only from the occupancy check); and try_move
commits the translated candidate and reports success exactly when it is
valid, otherwise leaving the whole state unchanged and reporting failure. -/
theorem is_valid_try_move_correct (g : Game) (p : Piece) (dx dy : Int) :
    (g.is_valid p = true ↔ ∀ c ∈ blocks_for p,
        0 ≤ c.1 ∧ c.1 < BOARD_W ∧ c.2 < BOARD_H ∧ (0 ≤ c.2 → getCell g.board c.1 c.2 = 0)) ∧
    (g.is_valid (Game.movedPiece g.current dx dy) = true →
        g.try_move dx dy = ({ g with current := Game.movedPiece g.current dx dy }, true)) ∧
    (g.is_valid (Game.movedPiece g.current dx dy) = false →
        g.try_move dx dy = (g, false)) := by
  refine ⟨is_valid_iff g p, fun h => ?_, fun h => ?_⟩
  · rw [try_move_eq, if_pos h]
  · rw [try_move_eq, if_neg (by simp [h])]

/-- Witness for C2: in a fresh all-I session the spawned piece's downward
translation is valid and try_move commits it. -/
theorem is_valid_try_move_correct_witness :
    gStart.try_move 0 1 = ({ gStart with current := Game.movedPiece gStart.current 0 1 }, true) :=
  (is_valid_try_move_correct gStart gStart.current 0 1).2.1 (by decide)

/-- C5: rotate_cw is a no-op when the game is over; otherwise it advances the
rotation by 1 mod 4 on a copy and tries the horizontal offsets 0, −1, +1,
−2, +2 in exactly that order, committing the first valid candidate, and when
none of the five candidates is valid it leaves the whole state unchanged. -/
theorem rotate_cw_correct (g : Game) :
    (g.game_over = true → g.rotate_cw = g) ∧
    (g.game_over = false →
      (∀ o : Int,
        Game.KICKS.find?
          (fun o => g.is_valid
            { kind := g.current.kind, rot := (g.current.rot + 1) % 4,
              x := g.current.x + o, y := g.current.y }) = some o →
        g.rotate_cw = { g with current :=
          { kind := g.current.kind, rot := (g.current.rot + 1) % 4,
            x := g.current.x + o, y := g.current.y } }) ∧
      (Game.KICKS.find?
          (fun o => g.is_valid
            { kind := g.current.kind, rot := (g.current.rot + 1) % 4,
              x := g.current.x + o, y := g.current.y }) = none →
        g.rotate_cw = g)) := by
  constructor
  · intro h
    unfold Game.rotate_cw
    rw [if_pos h]
  · intro h
    unfold Game.rotate_cw
    rw [if_neg (by simp [h]), tryKicks_eq_find]
    dsimp only
    exact ⟨fun o ho => by rw [ho], fun ho => by rw [ho]⟩

/-- Witness for C5: in the kick-asymmetry state the first rotation validates
at offset 0 and is committed. -/
theorem rotate_cw_correct_witness :
    gKickAsym.rotate_cw = { gKickAsym with current :=
      { kind := gKickAsym.current.kind, rot := (gKickAsym.current.rot + 1) % 4,
        x := gKickAsym.current.x + 0, y := gKickAsym.current.y } } :=
  ((rotate_cw_correct gKickAsym).2 (by decide)).1 0 (by decide)

/-- C1: tick follows the three-step state machine: on game_over it returns
GameOver leaving the whole state (board, score, lines, current, next)
untouched, hence idempotent; when the one-cell downward translation is valid
it commits the move and returns Moved; otherwise it locks the current piece,
clears lines, applies the score, spawns the next piece (which may set
game_over) and returns Locked with the cleared count and the resulting flag.
The final conjunct characterizes the lock: for every visible coordinate the
locked board holds the piece-kind id exactly on the piece's cells, so cells
with y < 0 are skipped and never reach the board. -/
theorem tick_state_machine (g : Game) :
    (g.game_over = true → g.tick = (g, Step.GameOver)) ∧
    (g.game_over = false → g.is_valid (Game.movedPiece g.current 0 1) = true →
      g.tick = ({ g with current := Game.movedPiece g.current 0 1 }, Step.Moved)) ∧
    (g.game_over = false → g.is_valid (Game.movedPiece g.current 0 1) = false →
      g.tick = (((g.lock_piece.clear_lines).1.apply_score
          (g.lock_piece.clear_lines).2).spawn_new_piece,
        Step.Locked (g.lock_piece.clear_lines).2
          (((g.lock_piece.clear_lines).1.apply_score
            (g.lock_piece.clear_lines).2).spawn_new_piece).game_over)) ∧
    (BoardWF g.board → g.is_valid g.current = true →
      ∀ x y : Int, 0 ≤ x → x < BOARD_W → 0 ≤ y → y < BOARD_H →
        getCell g.lock_piece.board x y =
          if (x, y) ∈ blocks_for g.current then g.current.kind.id
          else getCell g.board x y) := by
  refine ⟨fun h => ?_, fun h hv => ?_, fun h hv => ?_, fun hwf hcur => ?_⟩
  · rw [tick_eq, if_pos h]
  · rw [tick_eq, if_neg (by simp [h]), if_pos hv]
  · rw [tick_eq, if_neg (by simp [h]), if_neg (by simp [hv])]
  · intro x y hx hxW hy hyH
    have hblocks : ∀ c ∈ blocks_for g.current, 0 ≤ c.1 ∧ c.1 < 10 ∧ c.2 < 20 := by
      intro c hc
      have h := (is_valid_iff g g.current).mp hcur c hc
      unfold BOARD_W BOARD_H at h
      exact ⟨h.1, h.2.1, h.2.2.1⟩
    unfold BOARD_W at hxW
    unfold BOARD_H at hyH
    unfold Game.lock_piece
    exact getCell_lockFold g.current.kind.id (blocks_for g.current) g.board
      hwf.1 hwf.2.1 hblocks x y hx hxW hy hyH

/-- Witness for C1: a fresh all-I session is not over and its first tick
moves the piece down one cell. -/
theorem tick_state_machine_witness :
    gStart.game_over = false ∧
    gStart.tick = ({ gStart with current := Game.movedPiece gStart.current 0 1 }, Step.Moved) :=
  ⟨by decide, (tick_state_machine gStart).2.1 (by decide) (by decide)⟩

/-- The lock fold preserves the board's length. -/
theorem lockFold_length (v : Nat) :
    ∀ (blocks : List (Int × Int)) (b : Board),
    (blocks.foldl (fun b c => if c.2 < 0 then b else setCell b c.1 c.2 v) b).length = b.length
  | [], _ => rfl
  | c :: rest, b => by
    rw [List.foldl_cons]
    by_cases hneg : c.2 < 0
    · rw [if_pos hneg]
      exact lockFold_length v rest b
    · rw [if_neg hneg, lockFold_length v rest _, setCell, List.length_set]

/-- The lock fold turns at most `blocks.length` rows full. -/
theorem countFull_lockFold (v : Nat) :
    ∀ (blocks : List (Int × Int)) (b : Board),
    countFull (blocks.foldl (fun b c => if c.2 < 0 then b else setCell b c.1 c.2 v) b)
      ≤ countFull b + blocks.length
  | [], _ => Nat.le_refl _
  | c :: rest, b => by
    rw [List.foldl_cons, List.length_cons]
    by_cases hneg : c.2 < 0
    · rw [if_pos hneg]
      exact Nat.le_trans (countFull_lockFold v rest b) (by omega)
    · rw [if_neg hneg]
      refine Nat.le_trans (countFull_lockFold v rest _) ?_
      have := countP_set_le (fun r => Game.isFullRow r) b c.2.toNat
        ((b.getD c.2.toNat zeroRow).set c.1.toNat v)
      unfold countFull setCell
      omega

/-- After a clear, no full row remains. -/
theorem countFull_clear_zero (g : Game) (hb : g.board.length = 20) :
    countFull (g.clear_lines).1.board = 0 := by
  rw [clear_lines_eq g hb]
  unfold countFull
  rw [List.countP_append, List.countP_replicate,
    if_neg (by simp [isFullRow_zeroRow])]
  have hz : (g.board.filter (fun r => !Game.isFullRow r)).countP
      (fun r => Game.isFullRow r) = 0 := by
    rw [List.countP_eq_zero]
    intro a ha hfull
    have h2 := (List.mem_filter.mp ha).2
    rw [hfull] at h2
    exact Bool.noConfusion h2
  rw [hz]

/-- A zeroed non-empty row is not full. -/
theorem isFullRow_zeroed (r : List Nat) (h : r.length = 10) :
    Game.isFullRow (r.map fun _ => 0) = false := by
  cases r with
  | nil => simp at h
  | cons x xs =>
    unfold Game.isFullRow
    simp [List.all_cons]

/-- In every reachable state — after construction and any sequence of public
operations — the board has no full row, which is precisely the situation in
which `clear_lines` runs after a single lock. -/
theorem countFull_applyOps_zero (stream : Nat → Tetromino) (ops : List Op) :
    countFull (applyOps ops (initGame stream)).board = 0 := by
  suffices h : ∀ (ops : List Op) (g : Game), BoardWF g.board → countFull g.board = 0 →
      countFull (applyOps ops g).board = 0 by
    refine h ops (initGame stream) ?_ ?_ <;> rw [initGame_board]
    · exact BoardWF_zeroBoard
    · unfold countFull zeroBoard
      rw [List.countP_replicate, if_neg (by simp [isFullRow_zeroRow])]
  intro ops
  induction ops with
  | nil => intro g _ h0; exact h0
  | cons o ops ih =>
    intro g hwf h0
    refine ih (applyOp o g) (BoardWF_applyOp o g hwf) ?_
    have hlocked : countFull ((((g.lock_piece.clear_lines).1.apply_score
        (g.lock_piece.clear_lines).2).spawn_new_piece)).board = 0 := by
      rw [spawn_board]
      exact countFull_clear_zero _ (by unfold Game.lock_piece; rw [lockFold_length]; exact hwf.1)
    have htick : countFull (g.tick).1.board = 0 := by
      rw [tick_eq]
      by_cases hov : g.game_over = true
      · rw [if_pos hov]
        exact h0
      · rw [if_neg hov]
        by_cases hv : g.is_valid (Game.movedPiece g.current 0 1) = true
        · rw [if_pos hv]
          exact h0
        · rw [if_neg hv]
          exact hlocked
    cases o with
    | tick => exact htick
    | soft => exact htick
    | left =>
      dsimp only [applyOp]
      unfold Game.move_left
      split
      · rw [try_move_eq]
        split
        · exact h0
        · exact h0
      · exact h0
    | right =>
      dsimp only [applyOp]
      unfold Game.move_right
      split
      · rw [try_move_eq]
        split
        · exact h0
        · exact h0
      · exact h0
    | rotate =>
      dsimp only [applyOp]
      unfold Game.rotate_cw
      split
      · exact h0
      · rw [(tryKicks_board g _ Game.KICKS).1]
        exact h0
    | hard =>
      dsimp only [applyOp]
      rw [hard_drop_eq]
      by_cases hov : g.game_over = true
      · rw [if_pos hov]
        exact h0
      · rw [if_neg hov]
        rw [spawn_board]
        exact countFull_clear_zero _
          (by unfold Game.lock_piece; rw [lockFold_length]; exact hwf.1)
    | reset =>
      dsimp only [applyOp]
      rw [reset_board]
      unfold countFull
      rw [List.countP_eq_zero]
      intro r hr hfull
      obtain ⟨r0, hr0, rfl⟩ := List.mem_map.mp hr
      rw [isFullRow_zeroed r0 (hwf.2.1 _ hr0)] at hfull
      exact Bool.noConfusion hfull

theorem SHAPES_length : ∀ (k : Tetromino) (r : Fin 4), (SHAPES k r.val).length = 4 := by
  decide

theorem blocks_for_length (p : Piece) : (blocks_for p).length = 4 := by
  unfold blocks_for
  rw [List.length_map]
  exact SHAPES_length p.kind ⟨p.rot % 4, Nat.mod_lt _ (by omega)⟩

/-- C3: clear_lines removes exactly the rows whose 10 cells are all
non-zero, leaving the non-full rows in order below the corresponding number
of fresh zero rows at the top; it returns the number of removed rows and
adds it to the running u32 lines counter; invoked right after locking a
single piece into a board with no full rows, the count is at most 4 (the
piece writes at most 4 cells) — and every state reachable by public
operations from construction does have a board with no full rows. -/
theorem clear_lines_correct (g : Game) (hb : g.board.length = 20) :
    (g.clear_lines).2 = countFull g.board ∧
    (g.clear_lines).1.board =
      List.replicate (countFull g.board) zeroRow
        ++ g.board.filter (fun r => !Game.isFullRow r) ∧
    (g.clear_lines).1.lines = (g.lines + countFull g.board) % u32Lim ∧
    (∀ g₀ : Game, g₀.board.length = 20 → countFull g₀.board = 0 →
      (g₀.lock_piece.clear_lines).2 ≤ 4) ∧
    ∀ (stream : Nat → Tetromino) (ops : List Op),
      countFull (applyOps ops (initGame stream)).board = 0 := by
  refine ⟨?_, ?_, ?_, ?_, fun stream ops => countFull_applyOps_zero stream ops⟩
  · rw [clear_lines_eq g hb]
  · rw [clear_lines_eq g hb]
  · rw [clear_lines_eq g hb]
  · intro g₀ hb₀ h0
    have hlen : g₀.lock_piece.board.length = 20 := by
      unfold Game.lock_piece
      rw [lockFold_length]
      exact hb₀
    rw [clear_lines_eq _ hlen]
    have hle : countFull g₀.lock_piece.board ≤ countFull g₀.board + (blocks_for g₀.current).length := by
      unfold Game.lock_piece
      exact countFull_lockFold _ _ _
    rw [blocks_for_length, h0] at hle
    exact hle

/-- Witness for C3: locking the vertical I piece of the tetris state clears
exactly 4 rows, within the 0–4 bound. -/
theorem clear_lines_correct_witness :
    countFull gTetris.board = 0 ∧
    (gTetris.lock_piece.clear_lines).2 = 4 ∧
    (gTetris.lock_piece.clear_lines).2 ≤ 4 :=
  ⟨by decide, by decide,
    (clear_lines_correct gTetris (by decide)).2.2.2.1 gTetris (by decide) (by decide)⟩

/-- The scoring update written with `scoreBase`: a saturating u32 addition of
the (wrapping) u32 product base × level. -/
theorem apply_score_eq (g : Game) (c : Nat) :
    g.apply_score c
      = { g with score := min (g.score + scoreBase c * g.level % u32Lim) (u32Lim - 1) } := by
  match c with
  | 0 => rfl
  | 1 => rfl
  | 2 => rfl
  | 3 => rfl
  | 4 => rfl
  | n + 5 => rfl

/-- Counterexample to C4 as frozen: with the score already at u32::MAX,
a tick that locks and clears one row at level 1 leaves the score unchanged —
it does not increase by base(1) × level = 40, because the addition is
saturating. -/
theorem score_increment_cex :
    (gSaturated.tick).2 = Step.Locked 1 false ∧
    (gSaturated.tick).1.lines = 1 ∧
    (gSaturated.tick).1.score = gSaturated.score ∧
    ¬ ((gSaturated.tick).1.score
        = gSaturated.score + 40 * ((gSaturated.tick).1.lines / 10 + 1)) := by
  decide

/-- C4 amended: on the locking branch the score increases by exactly
base(cleared) × level, where level = (lines / 10) + 1 is computed from the
lines total already updated with the just-cleared rows — provided the u32
product base × level does not wrap and the saturating addition stays below
the u32 ceiling (at the ceiling the score saturates instead). -/
theorem score_increment (g : Game)
    (hov : g.game_over = false)
    (hv : g.is_valid (Game.movedPiece g.current 0 1) = false)
    (hmul : scoreBase (g.lock_piece.clear_lines).2 * (g.lock_piece.clear_lines).1.level < u32Lim)
    (hsat : g.score + scoreBase (g.lock_piece.clear_lines).2
        * (g.lock_piece.clear_lines).1.level < u32Lim) :
    (g.tick).1.score = g.score
      + scoreBase (g.lock_piece.clear_lines).2 * (g.lock_piece.clear_lines).1.level ∧
    (g.lock_piece.clear_lines).1.level
      = ((g.lines + (g.lock_piece.clear_lines).2) % u32Lim) / 10 + 1 := by
  constructor
  · rw [tick_eq, if_neg (by simp [hov]), if_neg (by simp [hv])]
    show (((g.lock_piece.clear_lines).1.apply_score
      (g.lock_piece.clear_lines).2).spawn_new_piece).score = _
    rw [spawn_score, apply_score_eq]
    show min ((g.lock_piece.clear_lines).1.score
      + scoreBase (g.lock_piece.clear_lines).2
        * (g.lock_piece.clear_lines).1.level % u32Lim) (u32Lim - 1) = _
    have h1 : (g.lock_piece.clear_lines).1.score = g.score := rfl
    rw [h1, Nat.mod_eq_of_lt hmul]
    omega
  · rfl

/-- Each loop iteration of the clear scan adds at most one cleared row. -/
theorem clearLoop_cleared_le : ∀ (fuel : Nat) (b : Board) (y : Int) (c : Nat),
    (Game.clearLoop fuel b y c).2 ≤ c + fuel
  | 0, _, _, _ => Nat.le_refl _
  | fuel + 1, b, y, c => by
    rw [Game.clearLoop]
    by_cases hneg : y < 0
    · rw [if_pos hneg]
      exact by omega
    · rw [if_neg hneg]
      by_cases hfull : Game.isFullRow (b.getD y.toNat zeroRow) = true
      · rw [if_pos hfull]
        exact Nat.le_trans (clearLoop_cleared_le fuel _ y (c + 1)) (by omega)
      · rw [if_neg hfull]
        exact Nat.le_trans (clearLoop_cleared_le fuel b (y - 1) c) (by omega)

theorem clear_lines_cleared_le (x : Game) : (x.clear_lines).2 ≤ 41 := by
  have h : (x.clear_lines).2 = (Game.clearLoop 41 x.board (BOARD_H - 1) 0).2 := rfl
  rw [h]
  exact clearLoop_cleared_le 41 x.board (BOARD_H - 1) 0

/-- Counter behaviour of the whole lock → clear → score → spawn sequence. -/
theorem locked_counters (x : Game) (hs : x.score < u32Lim) (hl : x.lines + 41 < u32Lim) :
    x.score ≤ (((x.lock_piece.clear_lines).1.apply_score
        (x.lock_piece.clear_lines).2).spawn_new_piece).score ∧
    (((x.lock_piece.clear_lines).1.apply_score
        (x.lock_piece.clear_lines).2).spawn_new_piece).score < u32Lim ∧
    x.lines ≤ (((x.lock_piece.clear_lines).1.apply_score
        (x.lock_piece.clear_lines).2).spawn_new_piece).lines ∧
    (((x.lock_piece.clear_lines).1.apply_score
        (x.lock_piece.clear_lines).2).spawn_new_piece).lines ≤ x.lines + 41 := by
  have hk : (x.lock_piece.clear_lines).2 ≤ 41 := clear_lines_cleared_le x.lock_piece
  have hscore : (((x.lock_piece.clear_lines).1.apply_score
      (x.lock_piece.clear_lines).2).spawn_new_piece).score
      = min ((x.lock_piece.clear_lines).1.score
          + scoreBase (x.lock_piece.clear_lines).2
            * (x.lock_piece.clear_lines).1.level % u32Lim) (u32Lim - 1) := by
    rw [spawn_score, apply_score_eq]
  have hsc0 : (x.lock_piece.clear_lines).1.score = x.score := rfl
  have hlin : (((x.lock_piece.clear_lines).1.apply_score
      (x.lock_piece.clear_lines).2).spawn_new_piece).lines
      = (x.lines + (x.lock_piece.clear_lines).2) % u32Lim := by
    rw [spawn_lines]
    rfl
  have hmod : (x.lines + (x.lock_piece.clear_lines).2) % u32Lim
      = x.lines + (x.lock_piece.clear_lines).2 :=
    Nat.mod_eq_of_lt (by omega)
  rw [hscore, hsc0, hlin, hmod]
  have hm : scoreBase (x.lock_piece.clear_lines).2
      * (x.lock_piece.clear_lines).1.level % u32Lim < u32Lim := by
    apply Nat.mod_lt
    unfold u32Lim
    omega
  unfold u32Lim at *
  omega

theorem applyOp_counters (o : Op) (g : Game) (ho : o ≠ Op.reset)
    (hs : g.score < u32Lim) (hl : g.lines + 41 < u32Lim) :
    g.score ≤ (applyOp o g).score ∧ (applyOp o g).score < u32Lim ∧
    g.lines ≤ (applyOp o g).lines ∧ (applyOp o g).lines ≤ g.lines + 41 := by
  have htick : g.score ≤ (g.tick).1.score ∧ (g.tick).1.score < u32Lim ∧
      g.lines ≤ (g.tick).1.lines ∧ (g.tick).1.lines ≤ g.lines + 41 := by
    rw [tick_eq]
    by_cases hov : g.game_over = true
    · rw [if_pos hov]
      exact ⟨Nat.le_refl _, hs, Nat.le_refl _, Nat.le_add_right _ _⟩
    · rw [if_neg hov]
      by_cases hv : g.is_valid (Game.movedPiece g.current 0 1) = true
      · rw [if_pos hv]
        exact ⟨Nat.le_refl _, hs, Nat.le_refl _, Nat.le_add_right _ _⟩
      · rw [if_neg hv]
        exact locked_counters g hs hl
  cases o with
  | tick => exact htick
  | soft => exact htick
  | left =>
    dsimp only [applyOp]
    unfold Game.move_left
    split
    · rw [try_move_eq]
      split
      · exact ⟨Nat.le_refl _, hs, Nat.le_refl _, Nat.le_add_right _ _⟩
      · exact ⟨Nat.le_refl _, hs, Nat.le_refl _, Nat.le_add_right _ _⟩
    · exact ⟨Nat.le_refl _, hs, Nat.le_refl _, Nat.le_add_right _ _⟩
  | right =>
    dsimp only [applyOp]
    unfold Game.move_right
    split
    · rw [try_move_eq]
      split
      · exact ⟨Nat.le_refl _, hs, Nat.le_refl _, Nat.le_add_right _ _⟩
      · exact ⟨Nat.le_refl _, hs, Nat.le_refl _, Nat.le_add_right _ _⟩
    · exact ⟨Nat.le_refl _, hs, Nat.le_refl _, Nat.le_add_right _ _⟩
  | rotate =>
    dsimp only [applyOp]
    unfold Game.rotate_cw
    split
    · exact ⟨Nat.le_refl _, hs, Nat.le_refl _, Nat.le_add_right _ _⟩
    · have h := tryKicks_board g
        { g.current with rot := (g.current.rot + 1) % 4 } Game.KICKS
      rw [h.2.1, h.2.2.1]
      exact ⟨Nat.le_refl _, hs, Nat.le_refl _, Nat.le_add_right _ _⟩
  | hard =>
    dsimp only [applyOp]
    rw [hard_drop_eq]
    by_cases hov : g.game_over = true
    · rw [if_pos hov]
      exact ⟨Nat.le_refl _, hs, Nat.le_refl _, Nat.le_add_right _ _⟩
    · rw [if_neg hov]
      exact locked_counters
        { g with current := Game.dropIter g g.current (Game.dropBound g.current) } hs hl
  | reset => exact absurd rfl ho

theorem counters_monotone_aux : ∀ (ops : List Op) (g : Game),
    (∀ o ∈ ops, o ≠ Op.reset) → g.score < u32Lim → g.lines + 41 * ops.length < u32Lim →
    g.score ≤ (applyOps ops g).score ∧ (applyOps ops g).score < u32Lim ∧
    g.lines ≤ (applyOps ops g).lines
  | [], g, _, hs, _ => ⟨Nat.le_refl _, hs, Nat.le_refl _⟩
  | o :: ops, g, hno, hs, hl => by
    have hlen : g.lines + 41 < u32Lim := by
      rw [List.length_cons] at hl
      omega
    have h1 := applyOp_counters o g (hno o (List.mem_cons_self o ops)) hs hlen
    have h2 := counters_monotone_aux ops (applyOp o g)
      (fun o' ho' => hno o' (List.mem_cons_of_mem _ ho')) h1.2.1
      (by rw [List.length_cons] at hl; omega)
    exact ⟨Nat.le_trans h1.1 h2.1, h2.2.1, Nat.le_trans h1.2.2.1 h2.2.2⟩

/-- Counterexample to C6 as frozen: a tick from a state whose cleared-lines
counter sits at u32::MAX clears one row, and the wrapping u32 addition takes
the counter from 4294967295 to 0 — it decreases. -/
theorem lines_wrap_cex :
    (gLinesMax.tick).1.lines < gLinesMax.lines := by decide

/-- C6 amended: across every sequence of gameplay calls without reset, the
score never decreases and saturates at the u32 ceiling rather than
overflowing; the cleared-lines counter never decreases as long as its
running total stays below 2^32 (it is a wrapping u32 addition, so a session
that exceeded 2^32 cleared lines would wrap it to 0). -/
theorem counters_monotone (g : Game) (ops : List Op)
    (hno : ∀ o ∈ ops, o ≠ Op.reset) (hs : g.score < u32Lim)
    (hl : g.lines + 41 * ops.length < u32Lim) :
    g.score ≤ (applyOps ops g).score ∧ (applyOps ops g).score < u32Lim ∧
    g.lines ≤ (applyOps ops g).lines :=
  counters_monotone_aux ops g hno hs hl

/-- Witness for C6: two gameplay calls from a fresh session keep both
counters non-decreasing and the score below the ceiling. -/
theorem counters_monotone_witness :
    gStart.score ≤ (applyOps [Op.rotate, Op.hard] gStart).score ∧
    (applyOps [Op.rotate, Op.hard] gStart).score < u32Lim ∧
    gStart.lines ≤ (applyOps [Op.rotate, Op.hard] gStart).lines :=
  counters_monotone gStart [Op.rotate, Op.hard] (by decide) (by decide) (by decide)

/-- Witness for C4: the tetris state clears 4 rows at level 1 and the score
rises by exactly 1200. -/
theorem score_increment_witness :
    gTetris.game_over = false ∧
    scoreBase (gTetris.lock_piece.clear_lines).2
      * (gTetris.lock_piece.clear_lines).1.level = 1200 ∧
    (gTetris.tick).1.score = gTetris.score
      + scoreBase (gTetris.lock_piece.clear_lines).2
        * (gTetris.lock_piece.clear_lines).1.level :=
  ⟨by decide, by decide,
    (score_increment gTetris (by decide) (by decide) (by decide) (by decide)).1⟩

/-! ### The descent loop of ghost_piece and hard_drop -/

theorem dropIter_succ (g : Game) (p : Piece) (fuel : Nat) :
    Game.dropIter g p (fuel + 1) =
      if g.is_valid { p with y := p.y + 1 } then
        Game.dropIter g { p with y := p.y + 1 } fuel
      else p := rfl

theorem dropIter_spec (g : Game) :
    ∀ (fuel : Nat) (p : Piece), Game.dropBound p ≤ fuel →
    ∃ k : Nat, Game.dropIter g p fuel = { p with y := p.y + (k : Int) } ∧
      (∀ j : Nat, 1 ≤ j → j ≤ k → g.is_valid { p with y := p.y + (j : Int) } = true) ∧
      g.is_valid { p with y := p.y + ((k + 1 : Nat) : Int) } = false
  | 0, p, h => absurd h (by unfold Game.dropBound; omega)
  | fuel + 1, p, h => by
    by_cases hv : g.is_valid { p with y := p.y + 1 } = true
    · have hy : ({ p with y := p.y + 1 } : Piece).y ≤ 19 := is_valid_y_le g _ hv
      dsimp only at hy
      have hb : Game.dropBound { p with y := p.y + 1 } ≤ fuel := by
        unfold Game.dropBound BOARD_H at h ⊢
        dsimp only
        omega
      obtain ⟨k, heq, hmid, hend⟩ := dropIter_spec g fuel { p with y := p.y + 1 } hb
      dsimp only at heq hmid hend
      refine ⟨k + 1, ?_, ?_, ?_⟩
      · rw [dropIter_succ, if_pos hv, heq]
        rw [show p.y + 1 + (k : Int) = p.y + ((k + 1 : Nat) : Int) by push_cast; ring]
      · intro j h1 hj
        cases j with
        | zero => omega
        | succ j' =>
          rcases Nat.eq_zero_or_pos j' with hz | hpos
          · subst hz
            rw [show p.y + ((0 + 1 : Nat) : Int) = p.y + 1 by push_cast; ring]
            exact hv
          · have hm := hmid j' (by omega) (by omega)
            rw [show p.y + 1 + (j' : Int) = p.y + ((j' + 1 : Nat) : Int) by push_cast; ring] at hm
            exact hm
      · rw [show p.y + ((k + 1 + 1 : Nat) : Int)
            = p.y + 1 + ((k + 1 : Nat) : Int) by push_cast; ring]
        exact hend
    · have hv' : g.is_valid { p with y := p.y + 1 } = false := Bool.eq_false_iff.mpr hv
      refine ⟨0, ?_, ?_, ?_⟩
      · rw [dropIter_succ, if_neg hv]
        rw [show p.y + ((0 : Nat) : Int) = p.y by push_cast; ring]
      · intro j h1 hj
        omega
      · rw [show p.y + ((0 + 1 : Nat) : Int) = p.y + 1 by push_cast; ring]
        exact hv'

theorem dropIter_fuel_stable (g : Game) (p : Piece) (f1 f2 : Nat)
    (h1 : Game.dropBound p ≤ f1) (h2 : Game.dropBound p ≤ f2) :
    Game.dropIter g p f1 = Game.dropIter g p f2 := by
  obtain ⟨k1, e1, m1, x1⟩ := dropIter_spec g f1 p h1
  obtain ⟨k2, e2, m2, x2⟩ := dropIter_spec g f2 p h2
  have hk : k1 = k2 := by
    by_contra hne
    rcases Nat.lt_or_ge k1 k2 with hlt | hge
    · have hval := m2 (k1 + 1) (by omega) (by omega)
      rw [hval] at x1
      exact Bool.noConfusion x1
    · have hlt2 : k2 < k1 := by omega
      have hval := m1 (k2 + 1) (by omega) (by omega)
      rw [hval] at x2
      exact Bool.noConfusion x2
  rw [e1, e2, hk]

/-- C10: every public operation terminates: the downward-translation loops
of ghost_piece and hard_drop reach their exit condition within the budget
dropBound (each iteration raises y by 1 and is_valid rejects any piece whose
cells reach y ≥ BOARD_H), and the clear-lines scan exits within 41
iterations (each step either lowers y or removes one of at most 20 full
rows); granting either loop extra fuel therefore leaves its result
unchanged. -/
theorem loops_terminate :
    (∀ (g : Game) (p : Piece) (extra : Nat),
      Game.dropIter g p (Game.dropBound p + extra) = Game.dropIter g p (Game.dropBound p)) ∧
    (∀ (b : Board) (extra : Nat), b.length = 20 →
      Game.clearLoop (41 + extra) b (BOARD_H - 1) 0 = Game.clearLoop 41 b (BOARD_H - 1) 0) := by
  constructor
  · intro g p extra
    exact dropIter_fuel_stable g p _ _ (Nat.le_add_right _ _) (Nat.le_refl _)
  · intro b extra hb
    have htake : b.take ((BOARD_H - 1 + 1).toNat) = b := by
      apply List.take_of_length_le
      rw [hb]; unfold BOARD_H; omega
    have hk : countFull b ≤ 20 := hb ▸ countFull_le b
    have hneed : ((BOARD_H - 1 : Int) + 1).toNat
        + countFull (b.take ((BOARD_H - 1 + 1).toNat)) + 1 ≤ 41 := by
      rw [htake]; unfold BOARD_H; omega
    rw [clearLoop_spec (41 + extra) b (BOARD_H - 1) 0 hb (by unfold BOARD_H; omega)
        (by omega),
      clearLoop_spec 41 b (BOARD_H - 1) 0 hb (by unfold BOARD_H; omega) hneed]

/-- Witness for C10: both loops are fuel-stable on concrete inputs. -/
theorem loops_terminate_witness :
    Game.dropIter gStart gStart.current (Game.dropBound gStart.current + 5)
      = Game.dropIter gStart gStart.current (Game.dropBound gStart.current) ∧
    Game.clearLoop (41 + 5) zeroBoard (BOARD_H - 1) 0
      = Game.clearLoop 41 zeroBoard (BOARD_H - 1) 0 :=
  ⟨loops_terminate.1 gStart gStart.current 5, loops_terminate.2 zeroBoard 5 (by decide)⟩

/-- Counterexample to C7 as frozen ("the returned piece position is always
valid"): in the reachable blocked-spawn game-over state — an all-I session
stacks five vertical I pieces in column 5, then spawns into the occupied
column — ghost_piece returns the blocked spawn position itself, which is
invalid. -/
theorem ghost_piece_invalid_cex :
    gBlockedSpawn.game_over = true ∧
    gBlockedSpawn.is_valid gBlockedSpawn.ghost_piece = false := by decide

/-- C7 amended: ghost_piece returns the position obtained by repeatedly
translating the current piece down by one cell while the result is valid
(every intermediate step is valid and one further step is not), the call
mutates no state (it is a pure function of the state in this embedding, as
the source method takes &self), and the returned position is itself valid
whenever the current piece's position is valid — which covers every state
except a game-over state whose blocked spawn position is invalid. -/
theorem ghost_piece_correct (g : Game) :
    (∃ k : Nat, g.ghost_piece = { g.current with y := g.current.y + (k : Int) } ∧
      (∀ j : Nat, 1 ≤ j → j ≤ k →
        g.is_valid { g.current with y := g.current.y + (j : Int) } = true) ∧
      g.is_valid { g.current with y := g.current.y + ((k + 1 : Nat) : Int) } = false) ∧
    (g.is_valid g.current = true → g.is_valid g.ghost_piece = true) := by
  have h := dropIter_spec g (Game.dropBound g.current) g.current (Nat.le_refl _)
  constructor
  · exact h
  · intro hc
    obtain ⟨k, heq, hmid, hend⟩ := h
    have hg : g.ghost_piece = Game.dropIter g g.current (Game.dropBound g.current) := rfl
    rw [hg, heq]
    cases k with
    | zero =>
      rw [show g.current.y + ((0 : Nat) : Int) = g.current.y by push_cast; ring]
      exact hc
    | succ k' => exact hmid (k' + 1) (by omega) (Nat.le_refl _)

/-- Witness for C7: in a fresh session the current piece is valid and so is
the ghost position. -/
theorem ghost_piece_correct_witness :
    gStart.is_valid gStart.current = true ∧
    gStart.is_valid gStart.ghost_piece = true :=
  ⟨by decide, (ghost_piece_correct gStart).2 (by decide)⟩

/-! ### Rotation cycle -/

theorem rotate_commits_rot (g : Game) (h : rotationCommits g = true) :
    (g.rotate_cw).current.rot = (g.current.rot + 1) % 4 := by
  obtain ⟨hov, hfind⟩ := (Bool.and_eq_true _ _) ▸ h
  rw [Bool.not_eq_true'] at hov
  obtain ⟨o, ho⟩ := Option.isSome_iff_exists.mp hfind
  unfold Game.rotate_cw
  rw [if_neg (by simp [hov]), tryKicks_eq_find]
  dsimp only
  rw [ho]

/-- Counterexample to C8 as frozen: in the kick-asymmetry state the first
rotation of the I piece commits but the next three are blocked by the filled
row 12 at every kick offset, so four rotate_cw calls leave the piece at
rotation state 1, not back at its original state 0. -/
theorem rotate_four_cex :
    (gKickAsym.rotate_cw.rotate_cw.rotate_cw.rotate_cw).current.rot
      ≠ gKickAsym.current.rot := by decide

/-- C8 amended: four successive rotate_cw calls return the current piece to
its original rotation state (mod-4 cycle, regardless of the x origin)
provided the stored rotation state is in 0–3 — as in every reachable
state — and each of the four attempts commits (some kick offset validates);
an attempt that commits nothing leaves the rotation state where it was, and
the cycle can then end elsewhere. -/
theorem rotate_four_cycle (g : Game) (hr : g.current.rot < 4)
    (h1 : rotationCommits g = true)
    (h2 : rotationCommits g.rotate_cw = true)
    (h3 : rotationCommits g.rotate_cw.rotate_cw = true)
    (h4 : rotationCommits g.rotate_cw.rotate_cw.rotate_cw = true) :
    (g.rotate_cw.rotate_cw.rotate_cw.rotate_cw).current.rot = g.current.rot := by
  have e1 := rotate_commits_rot _ h1
  have e2 := rotate_commits_rot _ h2
  have e3 := rotate_commits_rot _ h3
  have e4 := rotate_commits_rot _ h4
  rw [e4, e3, e2, e1]
  omega

/-- Witness for C8: on the empty starting board all four rotations of the I
piece commit and the rotation state returns to 0. -/
theorem rotate_four_cycle_witness :
    gStart.current.rot < 4 ∧
    (gStart.rotate_cw.rotate_cw.rotate_cw.rotate_cw).current.rot = gStart.current.rot :=
  ⟨by decide,
    rotate_four_cycle gStart (by decide) (by decide) (by decide) (by decide) (by decide)⟩

end RustEK
